import Mathlib

/-!
Verification development for the QuantumSQL prototype.

`QuantumSQLTB` embeds `src/quntam_sql.py` (the "v7.4 Distributed Cluster
Grover Engine"): expression normalization, tokenization, recursive-descent
parsing, batch partitioning, the noise-based "sparse" scoring backend, and
the mean-plus-standard-deviation aggregation/selection policy.

`QSqlV48` embeds the classic-logic selection path of `src/quantum_sql.py`
(the "v4.8 Dual Logic Engine").

Modelling conventions:
* Python floats are modelled as exact rationals (`ℚ`); `numpy` reductions
  (`sum`, `mean`, `std`) are modelled by exact list arithmetic.  The only
  irrational quantity, `np.std = sqrt(variance)`, enters solely through the
  comparison `score >= mean + std`; that comparison is embedded by the
  exactly equivalent rational test `mean ≤ score ∧ variance ≤ (score-mean)²`
  (see `selGe_iff_sqrt`, which proves the equivalence with the real-number
  formula `mean + Real.sqrt variance ≤ score`).
* `np.random.normal` draws are modelled as an arbitrary noise realization
  `ν : ℕ → ℕ → ℚ` (batch id ↦ slot ↦ drawn value).
* Python exceptions that escape (IndexError from `tokens.pop(0)`,
  ValueError from `math.log2(0)` / `mp.Pool(0)`) are modelled as `Except`
  error results.
* Character-level scanners are written with an explicit fuel argument equal
  to `input length + 1`; every recursive call consumes at least one input
  character, so the fuel is never exhausted and serves only to make the
  recursion structural (hence kernel-computable).
* Regex character classes `\w` and `\s` are modelled over ASCII, which
  covers every string manipulated by the repository.
-/

namespace QuantumSQLTB

/-- Python regex `\w` over ASCII: letters, digits, underscore. -/
def isWordChar (c : Char) : Bool := c.isAlpha || c.isDigit || c = '_'

/-- Python regex `\s` over ASCII whitespace. -/
def isSpaceChar (c : Char) : Bool :=
  c = ' ' || c = '\t' || c = '\n' || c = '\r' || c = '\x0b' || c = '\x0c'

/-- Character class `[-\d\.]` used for the numeric operands of `BETWEEN`. -/
def isNumChar (c : Char) : Bool := c.isDigit || c = '-' || c = '.'

/-- Case-insensitive literal match; returns the remaining input on success. -/
def matchCI : List Char → List Char → Option (List Char)
  | [], l => some l
  | _ :: _, [] => none
  | p :: ps, c :: cs => if p.toLower = c.toLower then matchCI ps cs else none

/-- Case-sensitive literal match; returns the remaining input on success. -/
def matchExact : List Char → List Char → Option (List Char)
  | [], l => some l
  | _ :: _, [] => none
  | p :: ps, c :: cs => if p = c then matchExact ps cs else none

/-- One attempted match of `(?i)\b(\w+)\s+BETWEEN\s+([-\d\.]+)\s+AND\s+([-\d\.]+)`
starting at `c :: cs` (the word boundary `\b` is checked by the caller).
All regex pieces act on disjoint character classes, so greedy matching
without backtracking is exact.  On success, returns the replacement text
`(\1 >= \2 and \1 <= \3)`, whether the last matched character is a word
character (for the caller's running `\b` state), and the rest of the input. -/
def tryBetween (c : Char) (cs : List Char) : Option (List Char × Bool × List Char) :=
  if !isWordChar c then none else
  let w := cs.takeWhile isWordChar
  let r1 := cs.dropWhile isWordChar
  let s1 := r1.takeWhile isSpaceChar
  let r2 := r1.dropWhile isSpaceChar
  if s1.isEmpty then none else
  match matchCI "between".data r2 with
  | none => none
  | some r3 =>
    let s2 := r3.takeWhile isSpaceChar
    let r4 := r3.dropWhile isSpaceChar
    if s2.isEmpty then none else
    let n1 := r4.takeWhile isNumChar
    let r5 := r4.dropWhile isNumChar
    if n1.isEmpty then none else
    let s3 := r5.takeWhile isSpaceChar
    let r6 := r5.dropWhile isSpaceChar
    if s3.isEmpty then none else
    match matchCI "and".data r6 with
    | none => none
    | some r7 =>
      let s4 := r7.takeWhile isSpaceChar
      let r8 := r7.dropWhile isSpaceChar
      if s4.isEmpty then none else
      let n2 := r8.takeWhile isNumChar
      let r9 := r8.dropWhile isNumChar
      if n2.isEmpty then none else
      some ('(' :: c :: w ++ " >= ".data ++ n1 ++ " and ".data ++ c :: w
              ++ " <= ".data ++ n2 ++ [')'],
            isWordChar (n2.getLastD '0'), r9)

/-- `re.sub` scan for the `BETWEEN` pattern: left-to-right, non-overlapping,
tracking whether the previous character is a word character (`\b`). -/
def betweenScan : Nat → Bool → List Char → List Char
  | 0, _, l => l
  | _ + 1, _, [] => []
  | fuel + 1, prevW, c :: cs =>
    if prevW then c :: betweenScan fuel (isWordChar c) cs
    else
      match tryBetween c cs with
      | some (repl, pw, rest) => repl ++ betweenScan fuel pw rest
      | none => c :: betweenScan fuel (isWordChar c) cs

/-- One attempted match of `(?i)\bKW\b` starting at `c :: cs`
(the leading `\b` is checked by the caller, the trailing one here). -/
def tryKw (kw : List Char) (c : Char) (cs : List Char) : Option (List Char) :=
  match matchCI kw (c :: cs) with
  | none => none
  | some rest =>
    match rest.head? with
    | some d => if isWordChar d then none else some rest
    | none => some rest

/-- `re.sub((?i)\bKW\b, rep)`: left-to-right, non-overlapping scan. -/
def kwFold (kw rep : List Char) : Nat → Bool → List Char → List Char
  | 0, _, l => l
  | _ + 1, _, [] => []
  | fuel + 1, prevW, c :: cs =>
    if prevW then c :: kwFold kw rep fuel (isWordChar c) cs
    else
      match tryKw kw c cs with
      | some rest => rep ++ kwFold kw rep fuel true rest
      | none => c :: kwFold kw rep fuel (isWordChar c) cs

/-- Python `str.replace`: leftmost, non-overlapping. -/
def pyReplace (pat rep : List Char) : Nat → List Char → List Char
  | 0, l => l
  | _ + 1, [] => []
  | fuel + 1, c :: cs =>
    match matchExact pat (c :: cs) with
    | some rest => rep ++ pyReplace pat rep fuel rest
    | none => c :: pyReplace pat rep fuel cs

/-- Python `str.strip()` over ASCII whitespace. -/
def pyStrip (l : List Char) : List Char :=
  ((l.dropWhile isSpaceChar).reverse.dropWhile isSpaceChar).reverse

/-- `re.sub(r"\s+", " ", ...)` as a one-pass state machine
(`prevSp` = currently inside a whitespace run). -/
def wsCollapse : Bool → List Char → List Char
  | _, [] => []
  | prevSp, c :: cs =>
    if isSpaceChar c then
      if prevSp then wsCollapse true cs else ' ' :: wsCollapse true cs
    else c :: wsCollapse false cs

/-- `normalize_expr` from `quntam_sql.py`: BETWEEN desugaring, case-folding
of the `AND`/`OR`/`NOT` keywords, the `>==`/`<==` typo replacements, then
strip and whitespace collapse. -/
def normalize_expr (s : String) : String :=
  let l0 := s.data
  let l1 := betweenScan (l0.length + 1) false l0
  let l2 := kwFold "and".data "and".data (l1.length + 1) false l1
  let l3 := kwFold "or".data "or".data (l2.length + 1) false l2
  let l4 := kwFold "not".data "not".data (l3.length + 1) false l3
  let l5 := pyReplace ">==".data ">=".data (l4.length + 1) l4
  let l6 := pyReplace "<==".data "<=".data (l5.length + 1) l5
  String.mk (wsCollapse false (pyStrip l6))

/-- One `re.findall` step of the token regex
`\(|\)|[A-Za-z_]\w*|[<>!=]=|[<>]|and|or|not|\d+\.\d+|\d+`, applied at each
position left to right; unrecognized characters are skipped.  (The
`and|or|not` alternatives are dead: the identifier alternative precedes
them and matches any candidate first.) -/
def tokenizeL : Nat → List Char → List (List Char)
  | 0, _ => []
  | _ + 1, [] => []
  | fuel + 1, c :: cs =>
    if c = '(' || c = ')' then [c] :: tokenizeL fuel cs
    else if c.isAlpha || c = '_' then
      (c :: cs.takeWhile isWordChar) :: tokenizeL fuel (cs.dropWhile isWordChar)
    else if (c = '<' || c = '>' || c = '!' || c = '=') && cs.headD ' ' = '=' then
      [c, '='] :: tokenizeL fuel cs.tail
    else if c = '<' || c = '>' then [c] :: tokenizeL fuel cs
    else if c.isDigit then
      let d1 := cs.takeWhile Char.isDigit
      let r1 := cs.dropWhile Char.isDigit
      match r1 with
      | '.' :: r2 =>
        let d2 := r2.takeWhile Char.isDigit
        if d2.isEmpty then (c :: d1) :: tokenizeL fuel r1
        else (c :: d1 ++ '.' :: d2) :: tokenizeL fuel (r2.dropWhile Char.isDigit)
      | _ => (c :: d1) :: tokenizeL fuel r1
    else tokenizeL fuel cs

/-- `tokenize` from `quntam_sql.py`. -/
def tokenize (s : String) : List String :=
  (tokenizeL (s.data.length + 1) s.data).map String.mk

/-- Python `str.lower()` (ASCII case fold). -/
def pyLower (s : String) : String := String.mk (s.data.map Char.toLower)

/-- `re.fullmatch(r"(<=|>=|==|!=|<|>)", t)`. -/
def isCmpOp (t : String) : Bool :=
  t = "<=" || t = ">=" || t = "==" || t = "!=" || t = "<" || t = ">"

/-- Expression AST built by `parse_expression`: tuples
`("VAR", name)`, `("CMP", col, op, lit)`, `("NOT", a)`, `("AND", a, b)`,
`("OR", a, b)`.  The literal slot stores whatever token was popped. -/
inductive Ast
  | var (name : String)
  | cmp (col op lit : String)
  | not (a : Ast)
  | and (a b : Ast)
  | or (a b : Ast)
deriving DecidableEq

/-- Escaping Python exceptions of the engine. -/
inductive QErr
  /-- `IndexError` from `tokens.pop(0)` on an empty list. -/
  | indexError
  /-- `ValueError: math domain error` from `math.log2(0)`. -/
  | mathDomain
  /-- `ValueError` from `mp.Pool(0)`. -/
  | valueError
deriving DecidableEq

instance exceptDecEq {ε α : Type} [DecidableEq ε] [DecidableEq α] :
    DecidableEq (Except ε α) := fun a b =>
  match a, b with
  | .ok x, .ok y =>
    if h : x = y then isTrue (by rw [h]) else isFalse (by intro hc; cases hc; exact h rfl)
  | .error x, .error y =>
    if h : x = y then isTrue (by rw [h]) else isFalse (by intro hc; cases hc; exact h rfl)
  | .ok _, .error _ => isFalse (by intro hc; cases hc)
  | .error _, .ok _ => isFalse (by intro hc; cases hc)

/-!
The recursive-descent parser of `quntam_sql.py`.  `parse_atom` pops a
token (IndexError when none is left); on `(` it parses an `or`-expression
and then pops one token unconditionally (the source never checks that it
is `)`); on `not` it recurses; otherwise, when at least two tokens remain
and the next is a comparison operator, it builds a `CMP` node whose
literal is whatever token follows; otherwise the popped token becomes a
`VAR`.  `parse_and` / `parse_or` fold left-associatively.  Leftover tokens
after the top-level `parse_or` are ignored, exactly as in the source.  The
fuel argument (`5 * length + 5` at entry, strictly decreasing along every
call edge that either consumes a token or moves down the
`or → and → atom` precedence chain) is an upper bound on the call depth
and is never exhausted.
-/
mutual

def parseAtomF : Nat → List String → Except QErr (Ast × List String)
  | 0, _ => .error .indexError
  | fuel + 1, ts =>
    match ts with
    | [] => .error .indexError
    | tok :: rest =>
      if tok = "(" then
        match parseOrF fuel rest with
        | .error e => .error e
        | .ok (node, r2) =>
          match r2 with
          | [] => .error .indexError
          | _ :: r3 => .ok (node, r3)
      else if pyLower tok = "not" then
        match parseAtomF fuel rest with
        | .error e => .error e
        | .ok (a, r2) => .ok (.not a, r2)
      else
        match rest with
        | t0 :: t1 :: r2 =>
          if isCmpOp t0 then .ok (.cmp (pyLower tok) t0 t1, r2)
          else .ok (.var (pyLower tok), rest)
        | _ => .ok (.var (pyLower tok), rest)

def parseAndLoopF : Nat → Ast → List String → Except QErr (Ast × List String)
  | 0, _, _ => .error .indexError
  | fuel + 1, node, ts =>
    match ts with
    | t :: rest =>
      if pyLower t = "and" then
        match parseAtomF fuel rest with
        | .error e => .error e
        | .ok (b, r2) => parseAndLoopF fuel (.and node b) r2
      else .ok (node, ts)
    | [] => .ok (node, [])

def parseAndF : Nat → List String → Except QErr (Ast × List String)
  | 0, _ => .error .indexError
  | fuel + 1, ts =>
    match parseAtomF fuel ts with
    | .error e => .error e
    | .ok (a, r1) => parseAndLoopF fuel a r1

def parseOrLoopF : Nat → Ast → List String → Except QErr (Ast × List String)
  | 0, _, _ => .error .indexError
  | fuel + 1, node, ts =>
    match ts with
    | t :: rest =>
      if pyLower t = "or" then
        match parseAndF fuel rest with
        | .error e => .error e
        | .ok (b, r2) => parseOrLoopF fuel (.or node b) r2
      else .ok (node, ts)
    | [] => .ok (node, [])

def parseOrF : Nat → List String → Except QErr (Ast × List String)
  | 0, _ => .error .indexError
  | fuel + 1, ts =>
    match parseAndF fuel ts with
    | .error e => .error e
    | .ok (a, r1) => parseOrLoopF fuel a r1

end

/-- `parse_expression` from `quntam_sql.py`: parse an `or`-expression and
discard leftover tokens. -/
def parse_expression (ts : List String) : Except QErr Ast :=
  match parseOrF (5 * ts.length + 5) ts with
  | .error e => .error e
  | .ok (a, _) => .ok a

/-! The scoring pipeline. -/

/-- `np.clip(x, 0, 1)`. -/
def clip01 (x : ℚ) : ℚ := max 0 (min 1 x)

/-- `int(math.ceil(math.log2 n))` for `n ≥ 1`: the least `k` with `n ≤ 2^k`
(computed by searching `k = 0, …, n`, which always contains the answer). -/
def ceilLog2 (n : Nat) : Nat := (List.range (n + 1)).findIdx (fun k => n ≤ 2 ^ k)

/-- Python `x or 1` on an integer `x`. -/
def pyOr1 (x : Nat) : Nat := if x = 0 then 1 else x

/-- Squared amplitudes of the `n`-qubit state `H^⊗n |0…0⟩`: the uniform
distribution over `2^n` basis states. -/
def statevecProbs (n : Nat) : List ℚ := List.replicate (2 ^ n) ((1 : ℚ) / 2 ^ n)

/-- The `else` (sparse) branch of `simulate_batch` on a batch of `m` rows
with noise stream `ν`: `ones(m)/m`, plus a noise draw per slot, clipped to
`[0,1]`, then renormalized by the sum. -/
def sparseVec (ν : Nat → ℚ) (m : Nat) : List ℚ :=
  let u := (List.range m).map (fun j => clip01 ((1 : ℚ) / m + ν j))
  u.map (fun x => x / u.sum)

/-- `simulate_batch` from `quntam_sql.py` on `(batch_id, batch_rows,
total_qubits, mode)`.  An empty batch raises `math.log2(0)`.  The `"gpu"`
and `"cpu"` branches are ideal statevector simulation of the
Hadamard-superposition circuit (the squared amplitudes are uniform);
any other mode string takes the noise-based sparse branch.  All branches
truncate to the batch row count, and `total_qubits` is never read. -/
def simulate_batch {α : Type} (ν : Nat → Nat → ℚ) (args : Nat × List α × Nat × String) :
    Except QErr (Nat × List ℚ) :=
  let (bid, brows, _tq, mode) := args
  if brows.length = 0 then .error .mathDomain
  else
    let n := pyOr1 (ceilLog2 brows.length)
    if mode = "gpu" then .ok (bid, (statevecProbs n).take brows.length)
    else if mode = "cpu" then .ok (bid, (statevecProbs n).take brows.length)
    else .ok (bid, (sparseVec (ν bid) brows.length).take brows.length)

/-- `mp.Pool.map`: apply the worker to every batch in order, propagating a
worker exception to the caller. -/
def mapMExcept {β γ : Type} (f : β → Except QErr γ) : List β → Except QErr (List γ)
  | [] => .ok []
  | b :: bs =>
    match f b with
    | .error e => .error e
    | .ok c =>
      match mapMExcept f bs with
      | .error e => .error e
      | .ok cs => .ok (c :: cs)

/-- Insertion step of `sorted(batch_results)` (keyed on the batch id;
ids are pairwise distinct, so tuple comparison never reaches the arrays). -/
def insertById (x : Nat × List ℚ) : List (Nat × List ℚ) → List (Nat × List ℚ)
  | [] => [x]
  | y :: ys => if x.1 ≤ y.1 then x :: y :: ys else y :: insertById x ys

/-- `sorted(batch_results)` keyed on the batch id. -/
def sortById : List (Nat × List ℚ) → List (Nat × List ℚ)
  | [] => []
  | x :: xs => insertById x (sortById xs)

/-- `np.mean`. -/
def qMean (l : List ℚ) : ℚ := l.sum / l.length

/-- `np.std(l) ** 2`: the population variance. -/
def qVar (l : List ℚ) : ℚ := ((l.map (fun x => (x - qMean l) ^ 2)).sum) / l.length

/-- The selection test `p >= mean + std` where `std = sqrt v`, embedded as
the exactly equivalent rational comparison `mean ≤ p ∧ v ≤ (p - mean)²`
(equivalence with the real-number formula is proved in `selGe_iff_sqrt`). -/
def selGe (p m v : ℚ) : Bool := decide (m ≤ p) && decide (v ≤ (p - m) ^ 2)

/-- `aggregate_results` from `quntam_sql.py`: concatenate the batch vectors
in batch-id order, truncate to the row count, renormalize by the total sum,
then select the indices (ascending, as `np.where` returns them) whose score
passes `mean + std`. -/
def aggregate_results {α : Type} (batch_results : List (Nat × List ℚ)) (rows : List α) :
    List ℚ × List Nat :=
  let sorted := sortById batch_results
  let probs0 := ((sorted.map Prod.snd).flatten).take rows.length
  let probs := probs0.map (fun x => x / probs0.sum)
  let m := qMean probs
  let v := qVar probs
  (probs, (List.range probs.length).filter (fun i => selGe (probs.getD i 0) m v))

/-- The engine class: it stores only the lower-cased column names
(used by the source solely to label the rendered result table). -/
structure QuantumSQL where
  columns : List String

/-- `QuantumSQL.__init__`. -/
def QuantumSQL.init (columns : List String) : QuantumSQL := ⟨columns.map pyLower⟩

/-- `min(cpu_count(), 8)`; `cpu` is the value returned by `cpu_count()`
(which is at least 1: `os.cpu_count() or 4`). -/
def cluster_sizeOf (cpu : Nat) : Nat := min cpu 8

/-- `math.ceil(len(rows) / cluster_size)`. -/
def batch_sizeOf (cpu n : Nat) : Nat :=
  (n + cluster_sizeOf cpu - 1) / cluster_sizeOf cpu

/-- The batch list comprehension of `run_query`: `(i, rows[i*bs:(i+1)*bs])`
for `i in range(cluster_size)` keeping only slices that start in range.
(`total_qubits` and `mode` are attached by the caller.) -/
def mkBatches {α : Type} (cpu : Nat) (rows : List α) : List (Nat × List α) :=
  (List.range (cluster_sizeOf cpu)).filterMap (fun i =>
    if i * batch_sizeOf cpu rows.length < rows.length then
      some (i, (rows.drop (i * batch_sizeOf cpu rows.length)).take (batch_sizeOf cpu rows.length))
    else none)

/-- The mode selection of `run_query`: qubit budget
`(ceil(log2 n) or 1) + 32`, sparse above the hard limit 28, otherwise GPU
if the probe succeeds, else CPU statevector. -/
def chooseMode (gpuAvail : Bool) (nRows : Nat) : String :=
  if pyOr1 (ceilLog2 nRows) + 32 > 28 then "sparse"
  else if gpuAvail then "gpu" else "cpu"

/-- The clipped pre-normalization mass of one batch in the sparse branch;
the noise hypothesis of the success theorems asks it to be positive
(almost surely true for Gaussian noise of standard deviation 0.01). -/
def clippedSum {α : Type} (ν : Nat → Nat → ℚ) (b : Nat × List α) : ℚ :=
  ((List.range b.2.length).map (fun j => clip01 ((1 : ℚ) / b.2.length + ν b.1 j))).sum

/-- `QuantumSQL.run_query` from `quntam_sql.py`.  Parameters beyond the
source signature model the ambient environment: the noise realization `ν`,
the `cpu_count()` value `cpu`, and the `has_gpu()` probe result
`gpuAvail`.  Steps: normalize/tokenize/parse the condition (a parse crash
aborts the call), compute the qubit budget — `math.log2(0)` raises on an
empty row list —, choose the mode, partition into batches, run the worker
pool (`mp.Pool(0)` raises when no batch exists), aggregate, and return the
normalized score vector together with the matched rows. -/
def QuantumSQL.run_query {α : Type} [Inhabited α] (_self : QuantumSQL) (ν : Nat → Nat → ℚ)
    (cpu : Nat) (gpuAvail : Bool) (rows : List α) (condition_str : String) :
    Except QErr (List ℚ × List α) :=
  match parse_expression (tokenize (normalize_expr condition_str)) with
  | .error e => .error e
  | .ok _ast =>
    if rows.length = 0 then .error .mathDomain
    else
      let totalQubits := pyOr1 (ceilLog2 rows.length) + 32
      let mode := chooseMode gpuAvail rows.length
      let batches := mkBatches cpu rows
      if batches.isEmpty then .error .valueError
      else
        match mapMExcept (fun b => simulate_batch ν (b.1, b.2, totalQubits, mode)) batches with
        | .error e => .error e
        | .ok results =>
          let (probs, idx) := aggregate_results results rows
          .ok (probs, idx.map (fun i => rows.getD i default))

end QuantumSQLTB

namespace QuantumSQLTB

/-! ### Lemmas about the batch partition -/

/-- The number of batches `run_query` actually builds. -/
def kBatches (cpu n : Nat) : Nat :=
  min (cluster_sizeOf cpu) ((n + batch_sizeOf cpu n - 1) / batch_sizeOf cpu n)

theorem cluster_sizeOf_pos {cpu : Nat} (hc : 1 ≤ cpu) : 1 ≤ cluster_sizeOf cpu := by
  simp [cluster_sizeOf]; omega

theorem batch_sizeOf_pos {cpu n : Nat} (hc : 1 ≤ cpu) (hn : 1 ≤ n) :
    1 ≤ batch_sizeOf cpu n := by
  have h1 : 1 ≤ cluster_sizeOf cpu := cluster_sizeOf_pos hc
  have h2 : cluster_sizeOf cpu ≤ 8 := by simp [cluster_sizeOf]
  unfold batch_sizeOf
  rw [Nat.le_div_iff_mul_le (by omega)]
  omega

theorem ceilDiv_mul_ge (a b : Nat) (hb : 0 < b) : a ≤ ((a + b - 1) / b) * b := by
  have h1 := Nat.div_add_mod (a + b - 1) b
  have h2 : (a + b - 1) % b < b := Nat.mod_lt _ hb
  have h3 : ((a + b - 1) / b) * b = b * ((a + b - 1) / b) := Nat.mul_comm ..
  rw [h3]
  generalize b * ((a + b - 1) / b) = t at h1 ⊢
  omega

theorem lt_ceilDiv_iff {a b i : Nat} (hb : 0 < b) : i < (a + b - 1) / b ↔ i * b < a := by
  have h1 : i < (a + b - 1) / b ↔ i + 1 ≤ (a + b - 1) / b := Iff.rfl
  rw [h1, Nat.le_div_iff_mul_le hb, Nat.succ_mul]
  generalize i * b = t
  omega

theorem filterMap_range_if {β : Type} (c K : Nat) (f : Nat → β) :
    (List.range c).filterMap (fun i => if i < K then some (f i) else none)
      = (List.range (min c K)).map f := by
  induction c with
  | zero => simp
  | succ c ih =>
    rw [List.range_succ, List.filterMap_append, ih]
    by_cases h : c < K
    · have hm1 : min c K = c := by omega
      have hm2 : min (c + 1) K = c + 1 := by omega
      simp [hm1, hm2, h, List.range_succ]
    · have hm1 : min c K = K := by omega
      have hm2 : min (c + 1) K = K := by omega
      simp [hm1, hm2, h]

theorem mkBatches_eq_map {α : Type} {cpu : Nat} (rows : List α)
    (hc : 1 ≤ cpu) (hn : 1 ≤ rows.length) :
    mkBatches cpu rows
      = (List.range (kBatches cpu rows.length)).map (fun i =>
          (i, (rows.drop (i * batch_sizeOf cpu rows.length)).take
                (batch_sizeOf cpu rows.length))) := by
  have hb : 0 < batch_sizeOf cpu rows.length := batch_sizeOf_pos hc hn
  unfold mkBatches kBatches
  rw [show (fun i => if i * batch_sizeOf cpu rows.length < rows.length then
        some (i, (rows.drop (i * batch_sizeOf cpu rows.length)).take
          (batch_sizeOf cpu rows.length)) else none)
      = (fun i => if i < (rows.length + batch_sizeOf cpu rows.length - 1) /
            batch_sizeOf cpu rows.length then
          some (i, (rows.drop (i * batch_sizeOf cpu rows.length)).take
            (batch_sizeOf cpu rows.length)) else none) from ?_]
  · exact filterMap_range_if ..
  · funext i
    rcases Nat.lt_or_ge (i * batch_sizeOf cpu rows.length) rows.length with h | h
    · rw [if_pos h, if_pos ((lt_ceilDiv_iff hb).mpr h)]
    · rw [if_neg (by omega), if_neg (by
        intro hcon
        have := (lt_ceilDiv_iff hb).mp hcon
        omega)]

theorem join_chunks {β : Type} (l : List β) (bsz : Nat) :
    ∀ k, ((List.range k).map (fun i => (l.drop (i * bsz)).take bsz)).flatten
      = l.take (k * bsz) := by
  intro k
  induction k with
  | zero => simp
  | succ k ih =>
    rw [List.range_succ, List.map_append, List.flatten_append, ih]
    simp only [List.map_cons, List.map_nil, List.flatten_cons, List.flatten_nil,
      List.append_nil]
    rw [Nat.succ_mul, List.take_add]

theorem kBatches_mul_ge {cpu n : Nat} (hc : 1 ≤ cpu) (hn : 1 ≤ n) :
    n ≤ kBatches cpu n * batch_sizeOf cpu n := by
  have hb : 0 < batch_sizeOf cpu n := batch_sizeOf_pos hc hn
  have hcs : 0 < cluster_sizeOf cpu := cluster_sizeOf_pos hc
  have h1 : n ≤ ((n + batch_sizeOf cpu n - 1) / batch_sizeOf cpu n) * batch_sizeOf cpu n :=
    ceilDiv_mul_ge n (batch_sizeOf cpu n) hb
  have h2 : n ≤ cluster_sizeOf cpu * batch_sizeOf cpu n := by
    have := ceilDiv_mul_ge n (cluster_sizeOf cpu) hcs
    unfold batch_sizeOf
    calc n ≤ ((n + cluster_sizeOf cpu - 1) / cluster_sizeOf cpu) * cluster_sizeOf cpu := this
    _ = cluster_sizeOf cpu * ((n + cluster_sizeOf cpu - 1) / cluster_sizeOf cpu) :=
        Nat.mul_comm ..
    _ ≤ _ := Nat.mul_le_mul_left _ (Nat.le_refl _)
  unfold kBatches
  rcases Nat.le_total (cluster_sizeOf cpu)
      ((n + batch_sizeOf cpu n - 1) / batch_sizeOf cpu n) with hle | hle
  · rw [Nat.min_eq_left hle]; exact h2
  · rw [Nat.min_eq_right hle]; exact h1

theorem mkBatches_flatten {α : Type} {cpu : Nat} (rows : List α)
    (hc : 1 ≤ cpu) (hn : 1 ≤ rows.length) :
    ((mkBatches cpu rows).map Prod.snd).flatten = rows := by
  rw [mkBatches_eq_map rows hc hn, List.map_map]
  have : (Prod.snd ∘ fun i =>
      ((i : Nat), (rows.drop (i * batch_sizeOf cpu rows.length)).take
        (batch_sizeOf cpu rows.length)))
      = (fun i => (rows.drop (i * batch_sizeOf cpu rows.length)).take
          (batch_sizeOf cpu rows.length)) := rfl
  rw [this, join_chunks]
  exact List.take_of_length_le (kBatches_mul_ge hc hn)

theorem mkBatches_length {α : Type} {cpu : Nat} (rows : List α)
    (hc : 1 ≤ cpu) (hn : 1 ≤ rows.length) :
    (mkBatches cpu rows).length = kBatches cpu rows.length := by
  rw [mkBatches_eq_map rows hc hn]; simp

theorem mkBatches_ids {α : Type} {cpu : Nat} (rows : List α)
    (hc : 1 ≤ cpu) (hn : 1 ≤ rows.length) :
    (mkBatches cpu rows).map Prod.fst = List.range (mkBatches cpu rows).length := by
  rw [mkBatches_eq_map rows hc hn, List.map_map]
  have h1 : (Prod.fst ∘ fun i =>
      ((i : Nat), (rows.drop (i * batch_sizeOf cpu rows.length)).take
        (batch_sizeOf cpu rows.length))) = id := rfl
  rw [h1, List.map_id]
  simp

theorem kBatches_pos {cpu n : Nat} (hc : 1 ≤ cpu) (hn : 1 ≤ n) :
    1 ≤ kBatches cpu n := by
  have hb : 0 < batch_sizeOf cpu n := batch_sizeOf_pos hc hn
  have hcs : 1 ≤ cluster_sizeOf cpu := cluster_sizeOf_pos hc
  unfold kBatches
  have : 0 < (n + batch_sizeOf cpu n - 1) / batch_sizeOf cpu n :=
    (lt_ceilDiv_iff hb).mpr (by omega)
  omega

theorem mkBatches_mem {α : Type} {cpu : Nat} {rows : List α} {b : Nat × List α}
    (hc : 1 ≤ cpu) (hn : 1 ≤ rows.length) (hb : b ∈ mkBatches cpu rows) :
    b.2 ≠ [] ∧ b.2.length ≤ batch_sizeOf cpu rows.length := by
  rw [mkBatches_eq_map rows hc hn] at hb
  obtain ⟨i, hi, rfl⟩ := List.mem_map.mp hb
  have hik : i < kBatches cpu rows.length := List.mem_range.mp hi
  have hbs : 0 < batch_sizeOf cpu rows.length := batch_sizeOf_pos hc hn
  have hlt : i * batch_sizeOf cpu rows.length < rows.length := by
    have := (lt_ceilDiv_iff hbs).mp (lt_of_lt_of_le hik (Nat.min_le_right _ _))
    exact this
  constructor
  · intro hempty
    have := congrArg List.length hempty
    simp at this
    omega
  · simp

end QuantumSQLTB

namespace QuantumSQLTB

theorem mkBatches_full_slice {α : Type} {cpu : Nat} (rows : List α)
    (hc : 1 ≤ cpu) (hn : 1 ≤ rows.length) :
    ∀ j, j + 1 < (mkBatches cpu rows).length →
      ((mkBatches cpu rows).getD j (0, [])).2.length = batch_sizeOf cpu rows.length := by
  intro j hj
  rw [mkBatches_length rows hc hn] at hj
  have hbs : 0 < batch_sizeOf cpu rows.length := batch_sizeOf_pos hc hn
  rw [mkBatches_eq_map rows hc hn]
  have hjlen : j < ((List.range (kBatches cpu rows.length)).map (fun i =>
      ((i : Nat), (rows.drop (i * batch_sizeOf cpu rows.length)).take
        (batch_sizeOf cpu rows.length)))).length := by
    simp; omega
  rw [List.getD_eq_getElem _ _ hjlen]
  simp only [List.getElem_map, List.getElem_range]
  -- the (j+1)-st batch still starts in range, so batch j is full
  have hnext : (j + 1) * batch_sizeOf cpu rows.length < rows.length := by
    have h1 : j + 1 < kBatches cpu rows.length := hj
    have h2 : j + 1 < (rows.length + batch_sizeOf cpu rows.length - 1) /
        batch_sizeOf cpu rows.length := lt_of_lt_of_le h1 (Nat.min_le_right _ _)
    exact (lt_ceilDiv_iff hbs).mp h2
  simp only [List.length_take, List.length_drop]
  have : (j + 1) * batch_sizeOf cpu rows.length
      = j * batch_sizeOf cpu rows.length + batch_sizeOf cpu rows.length := Nat.succ_mul ..
  omega

/-! ### Sorting, worker pool, and sparse-score lemmas -/

theorem sortById_eq_self : ∀ l : List (Nat × List ℚ),
    l.Pairwise (fun a b => a.1 ≤ b.1) → sortById l = l := by
  intro l hl
  induction l with
  | nil => rfl
  | cons x xs ih =>
    rw [List.pairwise_cons] at hl
    rw [sortById, ih hl.2]
    cases xs with
    | nil => rfl
    | cons y ys =>
      rw [insertById, if_pos (hl.1 y (List.mem_cons_self ..))]

theorem mapMExcept_ok {β γ : Type} (f : β → Except QErr γ) (g : β → γ) :
    ∀ l : List β, (∀ b ∈ l, f b = .ok (g b)) → mapMExcept f l = .ok (l.map g) := by
  intro l h
  induction l with
  | nil => rfl
  | cons b bs ih =>
    rw [mapMExcept, h b (List.mem_cons_self ..), ih (fun x hx => h x (List.mem_cons_of_mem _ hx))]
    rfl

theorem clip01_nonneg (x : ℚ) : 0 ≤ clip01 x := le_max_left ..

theorem clip01_le_one (x : ℚ) : clip01 x ≤ 1 := by
  rw [clip01]
  rcases le_total 0 (min 1 x) with h | h
  · rw [max_eq_right h]; exact min_le_left ..
  · rw [max_eq_left h]; norm_num

theorem sum_map_div (l : List ℚ) (d : ℚ) : (l.map (fun x => x / d)).sum = l.sum / d := by
  induction l with
  | nil => simp
  | cons x xs ih => simp [ih, add_div]

theorem sparseVec_length (ν : Nat → ℚ) (m : Nat) : (sparseVec ν m).length = m := by
  simp [sparseVec]

theorem sparseVec_sum (ν : Nat → ℚ) (m : Nat)
    (hpos : 0 < ((List.range m).map (fun j => clip01 ((1 : ℚ) / m + ν j))).sum) :
    (sparseVec ν m).sum = 1 := by
  simp only [sparseVec]
  rw [sum_map_div, div_self (ne_of_gt hpos)]

theorem sparseVec_mem_bounds (ν : Nat → ℚ) (m : Nat)
    (hpos : 0 < ((List.range m).map (fun j => clip01 ((1 : ℚ) / m + ν j))).sum) :
    ∀ x ∈ sparseVec ν m, 0 ≤ x ∧ x ≤ 1 := by
  intro x hx
  simp only [sparseVec, List.mem_map] at hx
  obtain ⟨y, hy, rfl⟩ := hx
  have hymem : y ∈ (List.range m).map (fun j => clip01 ((1 : ℚ) / m + ν j)) := by
    obtain ⟨j, hj, hje⟩ := hy
    exact List.mem_map.mpr ⟨j, hj, hje⟩
  have hynn : 0 ≤ y := by
    obtain ⟨j, _, rfl⟩ := hy
    exact clip01_nonneg _
  constructor
  · exact div_nonneg hynn (le_of_lt hpos)
  · rw [div_le_one hpos]
    exact List.single_le_sum (fun z hz => by
      obtain ⟨j', _, rfl⟩ := List.mem_map.mp hz
      exact clip01_nonneg _) _ hymem

end QuantumSQLTB

namespace QuantumSQLTB

theorem sum_const_one (l : List ℚ) (h : ∀ x ∈ l, x = 1) : l.sum = l.length := by
  induction l with
  | nil => simp
  | cons x xs ih =>
    rw [List.sum_cons, h x (List.mem_cons_self ..),
      ih (fun y hy => h y (List.mem_cons_of_mem _ hy))]
    simp
    ring

theorem aggregate_spec {α : Type} (rows : List α) (res : List (Nat × List ℚ))
    (hids : res.map Prod.fst = List.range res.length)
    (hlen : ((res.map Prod.snd).flatten).length = rows.length)
    (hsum : ∀ v ∈ res.map Prod.snd, v.sum = 1)
    (hbounds : ∀ v ∈ res.map Prod.snd, ∀ x ∈ v, 0 ≤ x ∧ x ≤ 1)
    (hk : 1 ≤ res.length) :
    (aggregate_results res rows).1.length = rows.length ∧
    (aggregate_results res rows).1.sum = 1 ∧
    (∀ p ∈ (aggregate_results res rows).1, 0 ≤ p ∧ p ≤ 1) ∧
    (aggregate_results res rows).2
      = (List.range (aggregate_results res rows).1.length).filter
          (fun i => selGe ((aggregate_results res rows).1.getD i 0)
            (qMean (aggregate_results res rows).1) (qVar (aggregate_results res rows).1)) := by
  have hpair : res.Pairwise (fun a b => a.1 ≤ b.1) := by
    have h1 : (res.map Prod.fst).Pairwise (· < ·) := by
      rw [hids]; exact List.pairwise_lt_range _
    have h2 := List.pairwise_map.mp h1
    exact h2.imp (fun h => le_of_lt h)
  have hsorted : sortById res = res := sortById_eq_self res hpair
  have htake : ((res.map Prod.snd).flatten).take rows.length = (res.map Prod.snd).flatten :=
    List.take_of_length_le (le_of_eq hlen)
  have hS : ((res.map Prod.snd).flatten).sum = (res.length : ℚ) := by
    rw [List.sum_flatten]
    have h1 : ∀ x ∈ (res.map Prod.snd).map List.sum, x = (1 : ℚ) := by
      intro x hx
      obtain ⟨v, hv, rfl⟩ := List.mem_map.mp hx
      exact hsum v hv
    rw [sum_const_one _ h1]
    simp
  have hSpos : (0 : ℚ) < ((res.map Prod.snd).flatten).sum := by
    rw [hS]
    exact_mod_cast hk
  have hSge1 : (1 : ℚ) ≤ ((res.map Prod.snd).flatten).sum := by
    rw [hS]
    exact_mod_cast hk
  -- unfold the aggregator
  set P := ((res.map Prod.snd).flatten).map
      (fun x => x / ((res.map Prod.snd).flatten).sum) with hP
  have hagg : aggregate_results res rows
      = (P, (List.range P.length).filter
          (fun i => selGe (P.getD i 0) (qMean P) (qVar P))) := by
    simp only [aggregate_results, hsorted, htake]
  rw [hagg]
  refine ⟨?_, ?_, ?_, rfl⟩
  · rw [hP]
    simp only [List.length_map]
    exact hlen
  · rw [hP, sum_map_div, div_self (ne_of_gt hSpos)]
  · intro p hp
    rw [hP] at hp
    obtain ⟨q, hq, rfl⟩ := List.mem_map.mp hp
    obtain ⟨v, hv, hqv⟩ := List.mem_flatten.mp hq
    obtain ⟨hq0, hq1⟩ := hbounds v hv q hqv
    constructor
    · exact div_nonneg hq0 (le_of_lt hSpos)
    · rw [div_le_one hSpos]
      exact le_trans hq1 hSge1

/-- `chooseMode` always picks the sparse fallback: the qubit budget is at
least 33 while the hard limit is 28. -/
theorem chooseMode_eq_sparse (gpuAvail : Bool) (n : Nat) :
    chooseMode gpuAvail n = "sparse" := by
  rw [chooseMode, if_pos]
  omega

theorem simulate_batch_sparse {α : Type} (ν : Nat → Nat → ℚ) (bid : Nat) (brows : List α)
    (tq : Nat) (hne : brows ≠ []) :
    simulate_batch ν (bid, brows, tq, "sparse")
      = .ok (bid, sparseVec (ν bid) brows.length) := by
  have hlen : brows.length ≠ 0 := by
    intro h
    exact hne (List.length_eq_zero.mp h)
  simp only [simulate_batch]
  rw [if_neg hlen, if_neg (by decide), if_neg (by decide)]
  rw [List.take_of_length_le (le_of_eq (sparseVec_length (ν bid) brows.length))]

theorem run_query_spec {α : Type} [Inhabited α] (Q : QuantumSQL) (ν : Nat → Nat → ℚ)
    (cpu : Nat) (gpuAvail : Bool) (rows : List α) (cond : String) (ast : Ast)
    (hr : rows ≠ []) (hc : 1 ≤ cpu)
    (hp : parse_expression (tokenize (normalize_expr cond)) = .ok ast)
    (hν : ∀ b ∈ mkBatches cpu rows, 0 < clippedSum ν b) :
    ∃ probs idx,
      Q.run_query ν cpu gpuAvail rows cond
        = .ok (probs, idx.map (fun i => rows.getD i default)) ∧
      idx = (List.range probs.length).filter
              (fun i => selGe (probs.getD i 0) (qMean probs) (qVar probs)) ∧
      probs.length = rows.length ∧ probs.sum = 1 ∧ (∀ p ∈ probs, 0 ≤ p ∧ p ≤ 1) := by
  have hn : 1 ≤ rows.length := by
    cases rows with
    | nil => exact absurd rfl hr
    | cons a l => simp
  have hsim : ∀ b ∈ mkBatches cpu rows,
      (fun b => simulate_batch ν (b.1, b.2, pyOr1 (ceilLog2 rows.length) + 32,
        chooseMode gpuAvail rows.length)) b
      = .ok ((fun b => (b.1, sparseVec (ν b.1) b.2.length)) b) := by
    intro b hb
    have hbne : b.2 ≠ [] := (mkBatches_mem hc hn hb).1
    rw [chooseMode_eq_sparse]
    exact simulate_batch_sparse ν b.1 b.2 _ hbne
  have hmap := mapMExcept_ok _ _ (mkBatches cpu rows) hsim
  set res := (mkBatches cpu rows).map (fun b => (b.1, sparseVec (ν b.1) b.2.length)) with hres
  have hreslen : res.length = (mkBatches cpu rows).length := by rw [hres]; simp
  have hids : res.map Prod.fst = List.range res.length := by
    rw [hres, List.map_map, hreslen]
    have : (Prod.fst ∘ fun b : Nat × List α => (b.1, sparseVec (ν b.1) b.2.length))
        = Prod.fst := rfl
    rw [this]
    exact mkBatches_ids rows hc hn
  have hsndmap : res.map Prod.snd
      = (mkBatches cpu rows).map (fun b => sparseVec (ν b.1) b.2.length) := by
    rw [hres, List.map_map]
    rfl
  have hlen : ((res.map Prod.snd).flatten).length = rows.length := by
    rw [hsndmap, List.length_flatten, List.map_map]
    have h1 : (List.length ∘ fun b : Nat × List α => sparseVec (ν b.1) b.2.length)
        = (fun b => b.2.length) := by
      funext b
      exact sparseVec_length ..
    rw [h1]
    calc ((mkBatches cpu rows).map (fun b => b.2.length)).sum
        = (((mkBatches cpu rows).map Prod.snd).map List.length).sum := by
          rw [List.map_map]; rfl
      _ = (((mkBatches cpu rows).map Prod.snd).flatten).length := (List.length_flatten _).symm
      _ = rows.length := by rw [mkBatches_flatten rows hc hn]
  have hsum : ∀ v ∈ res.map Prod.snd, v.sum = 1 := by
    intro v hv
    rw [hsndmap] at hv
    obtain ⟨b, hb, rfl⟩ := List.mem_map.mp hv
    exact sparseVec_sum _ _ (hν b hb)
  have hbounds : ∀ v ∈ res.map Prod.snd, ∀ x ∈ v, 0 ≤ x ∧ x ≤ 1 := by
    intro v hv
    rw [hsndmap] at hv
    obtain ⟨b, hb, rfl⟩ := List.mem_map.mp hv
    exact sparseVec_mem_bounds _ _ (hν b hb)
  have hk : 1 ≤ res.length := by
    rw [hreslen, mkBatches_length rows hc hn]
    exact kBatches_pos hc hn
  obtain ⟨hL, hSum, hB, hIdx⟩ := aggregate_spec rows res hids hlen hsum hbounds hk
  refine ⟨(aggregate_results res rows).1, (aggregate_results res rows).2, ?_, hIdx, hL, hSum, hB⟩
  -- now evaluate run_query
  rw [QuantumSQL.run_query, hp]
  simp only []
  rw [if_neg (by omega)]
  have hne : (mkBatches cpu rows).isEmpty = false := by
    have : (mkBatches cpu rows).length ≠ 0 := by
      rw [mkBatches_length rows hc hn]
      have := kBatches_pos hc hn
      omega
    cases hmk : mkBatches cpu rows with
    | nil => rw [hmk] at this; simp at this
    | cons x xs => rfl
  rw [hne]
  simp only [Bool.false_eq_true, if_false]
  rw [hmap]

end QuantumSQLTB

namespace QuantumSQLTB

/-! ### Threshold lemmas -/

theorem qVar_nonneg (l : List ℚ) : 0 ≤ qVar l := by
  rw [qVar]
  apply div_nonneg _ (by positivity)
  apply List.sum_nonneg
  intro x hx
  obtain ⟨y, _, rfl⟩ := List.mem_map.mp hx
  positivity

/-- The decidable selection test coincides with the source formula
`score >= mean + std` (with `std = sqrt variance`) over the reals. -/
theorem selGe_iff_sqrt (p m v : ℚ) (hv : 0 ≤ v) :
    selGe p m v = true ↔ (m : ℝ) + Real.sqrt (v : ℝ) ≤ (p : ℝ) := by
  rw [selGe, Bool.and_eq_true, decide_eq_true_eq, decide_eq_true_eq]
  constructor
  · rintro ⟨h1, h2⟩
    have h1' : (m : ℝ) ≤ p := by exact_mod_cast h1
    have h2' : (v : ℝ) ≤ ((p : ℝ) - m) ^ 2 := by exact_mod_cast h2
    have h3 : Real.sqrt v ≤ Real.sqrt (((p : ℝ) - m) ^ 2) := Real.sqrt_le_sqrt h2'
    rw [Real.sqrt_sq (by linarith)] at h3
    linarith
  · intro h
    have hs : 0 ≤ Real.sqrt (v : ℝ) := Real.sqrt_nonneg _
    have h1 : (m : ℝ) ≤ p := by linarith
    have h2 : Real.sqrt (v : ℝ) ≤ (p : ℝ) - m := by linarith
    have h3 : (v : ℝ) ≤ ((p : ℝ) - m) ^ 2 := by
      have h4 : Real.sqrt (v : ℝ) ^ 2 ≤ ((p : ℝ) - m) ^ 2 := pow_le_pow_left₀ hs h2 2
      rw [Real.sq_sqrt (by exact_mod_cast hv)] at h4
      exact h4
    exact ⟨by exact_mod_cast h1, by exact_mod_cast h3⟩

theorem sum_const_eq (l : List ℚ) (c : ℚ) (h : ∀ x ∈ l, x = c) : l.sum = l.length * c := by
  induction l with
  | nil => simp
  | cons x xs ih =>
    rw [List.sum_cons, h x (List.mem_cons_self ..),
      ih (fun y hy => h y (List.mem_cons_of_mem _ hy))]
    simp
    ring

theorem qMean_const (l : List ℚ) (c : ℚ) (hne : l ≠ []) (h : ∀ x ∈ l, x = c) :
    qMean l = c := by
  have hlen : (0 : ℚ) < l.length := by
    have := List.length_pos.mpr hne
    exact_mod_cast this
  rw [qMean, sum_const_eq l c h, mul_comm, mul_div_assoc, div_self (ne_of_gt hlen), mul_one]

theorem qVar_const (l : List ℚ) (h : ∀ x ∈ l, x = qMean l) : qVar l = 0 := by
  rw [qVar]
  have : (l.map (fun x => (x - qMean l) ^ 2)).sum = 0 := by
    apply List.sum_eq_zero
    intro x hx
    obtain ⟨y, hy, rfl⟩ := List.mem_map.mp hx
    rw [h y hy]
    ring
  rw [this, zero_div]

theorem filter_selGe_all (probs : List ℚ) (h : ∀ p ∈ probs, p = qMean probs) :
    (List.range probs.length).filter
        (fun i => selGe (probs.getD i 0) (qMean probs) (qVar probs))
      = List.range probs.length := by
  apply List.filter_eq_self.mpr
  intro i hi
  have hilen : i < probs.length := List.mem_range.mp hi
  have hmem : probs.getD i 0 ∈ probs := by
    rw [List.getD_eq_getElem probs 0 hilen]
    exact List.getElem_mem ..
  rw [h _ hmem, qVar_const probs h, selGe]
  simp

theorem map_getD_range {β : Type} [Inhabited β] (l : List β) :
    (List.range l.length).map (fun i => l.getD i default) = l := by
  apply List.ext_getElem (by simp)
  intro i h1 h2
  simp only [List.getElem_map, List.getElem_range]
  exact List.getD_eq_getElem l default h2

end QuantumSQLTB

namespace QuantumSQLTB

/-! ### Claim theorems for the distributed engine -/

/-- C1.  For every non-empty row list and every condition string that
parses, and every noise realization leaving each batch a positive clipped
mass (any Gaussian draw does, almost surely), `run_query` succeeds and
returns a score vector with exactly `len(rows)` entries, each in `[0,1]`,
summing to exactly 1 (hence within the `1e-6` tolerance). -/
theorem c1_score_vector_shape {α : Type} [Inhabited α] (Q : QuantumSQL) (ν : Nat → Nat → ℚ)
    (cpu : Nat) (gpuAvail : Bool) (rows : List α) (cond : String) (ast : Ast)
    (hr : rows ≠ []) (hc : 1 ≤ cpu)
    (hp : parse_expression (tokenize (normalize_expr cond)) = .ok ast)
    (hν : ∀ b ∈ mkBatches cpu rows, 0 < clippedSum ν b) :
    ∃ probs matched, Q.run_query ν cpu gpuAvail rows cond = .ok (probs, matched) ∧
      probs.length = rows.length ∧ (∀ p ∈ probs, 0 ≤ p ∧ p ≤ 1) ∧
      probs.sum = 1 ∧ |probs.sum - 1| ≤ 1 / 1000000 := by
  obtain ⟨probs, idx, heq, _, hL, hS, hB⟩ :=
    run_query_spec Q ν cpu gpuAvail rows cond ast hr hc hp hν
  exact ⟨probs, idx.map (fun i => rows.getD i default), heq, hL, hB, hS, by
    rw [hS]; norm_num⟩

/-- C2.  The matched rows are exactly the rows whose score passes
`mean + std` (`selGe` is the exact rational form of that real-number
comparison, as the third conjunct states), taken in ascending index order;
when all scores are identical the selection degenerates to all rows. -/
theorem c2_threshold_law {α : Type} [Inhabited α] (Q : QuantumSQL) (ν : Nat → Nat → ℚ)
    (cpu : Nat) (gpuAvail : Bool) (rows : List α) (cond : String) (ast : Ast)
    (hr : rows ≠ []) (hc : 1 ≤ cpu)
    (hp : parse_expression (tokenize (normalize_expr cond)) = .ok ast)
    (hν : ∀ b ∈ mkBatches cpu rows, 0 < clippedSum ν b) :
    ∃ probs idx,
      Q.run_query ν cpu gpuAvail rows cond
        = .ok (probs, idx.map (fun i => rows.getD i default)) ∧
      idx = (List.range probs.length).filter
              (fun i => selGe (probs.getD i 0) (qMean probs) (qVar probs)) ∧
      (∀ i, i < probs.length →
        (selGe (probs.getD i 0) (qMean probs) (qVar probs) = true ↔
          (qMean probs : ℝ) + Real.sqrt (qVar probs : ℝ) ≤ (probs.getD i 0 : ℝ))) ∧
      idx.Pairwise (· < ·) ∧
      ((∀ p ∈ probs, ∀ q ∈ probs, p = q) →
        idx.map (fun i => rows.getD i default) = rows) := by
  obtain ⟨probs, idx, heq, hidx, hL, _, _⟩ :=
    run_query_spec Q ν cpu gpuAvail rows cond ast hr hc hp hν
  have hplen : 1 ≤ rows.length := by
    cases rows with
    | nil => exact absurd rfl hr
    | cons a l => simp
  refine ⟨probs, idx, heq, hidx, ?_, ?_, ?_⟩
  · intro i _
    exact selGe_iff_sqrt _ _ _ (qVar_nonneg probs)
  · rw [hidx]
    exact List.Pairwise.filter _ (List.pairwise_lt_range _)
  · intro hconst
    have hpne : probs ≠ [] := by
      intro hcon
      rw [hcon] at hL
      simp at hL
      omega
    have hmean : ∀ p ∈ probs, p = qMean probs := by
      intro p hp'
      exact (qMean_const probs p hpne (fun x hx => hconst x hx p hp')).symm
    rw [hidx, filter_selGe_all probs hmean, hL]
    exact map_getD_range rows

/-- C3.  Noninterference with the filter: for a fixed row list and noise
realization, any two condition strings that parse produce identical
results (the score vector never depends on the parsed AST), and the
batch-level scoring depends only on the batch id, the batch row count and
the mode, never on the row contents. -/
theorem c3_condition_noninterference {α : Type} [Inhabited α] (Q : QuantumSQL)
    (ν : Nat → Nat → ℚ) (cpu : Nat) (gpuAvail : Bool) (rows : List α)
    (cond1 cond2 : String) (a1 a2 : Ast)
    (h1 : parse_expression (tokenize (normalize_expr cond1)) = .ok a1)
    (h2 : parse_expression (tokenize (normalize_expr cond2)) = .ok a2) :
    Q.run_query ν cpu gpuAvail rows cond1 = Q.run_query ν cpu gpuAvail rows cond2 ∧
    ∀ (rows1 rows2 : List α) (bid tq : Nat) (mode : String),
      rows1.length = rows2.length →
      simulate_batch ν (bid, rows1, tq, mode) = simulate_batch ν (bid, rows2, tq, mode) := by
  constructor
  · rw [QuantumSQL.run_query, QuantumSQL.run_query, h1, h2]
  · intro rows1 rows2 bid tq mode hlen
    simp only [simulate_batch, hlen]

/-- C4.  The qubit budget `(ceil(log2 n) or 1) + 32` always exceeds the
hard limit 28, so `run_query` always selects the `"sparse"` mode; in
particular its result never depends on the GPU probe, making the
statevector branches of `simulate_batch` unreachable from `run_query`. -/
theorem c4_always_sparse :
    (∀ (gpuAvail : Bool) (n : Nat), 1 ≤ n → chooseMode gpuAvail n = "sparse") ∧
    (∀ (Q : QuantumSQL) (ν : Nat → Nat → ℚ) (cpu : Nat) (g g' : Bool)
      (rows : List String) (cond : String),
      Q.run_query ν cpu g rows cond = Q.run_query ν cpu g' rows cond) := by
  constructor
  · intro g n _
    exact chooseMode_eq_sparse g n
  · intro Q ν cpu g g' rows cond
    rw [QuantumSQL.run_query, QuantumSQL.run_query]
    cases hp : parse_expression (tokenize (normalize_expr cond)) with
    | error e => rfl
    | ok ast => simp only [chooseMode_eq_sparse]

/-- C10.  The batch partition: batch ids equal list positions, the
concatenation of the slices in id order rebuilds the original row list,
every kept batch is a non-empty slice of at most `batch_size` rows, and
every batch except possibly the last is exactly full (empty trailing
batches are omitted by construction). -/
theorem c10_partition {α : Type} (rows : List α) (cpu : Nat)
    (hr : rows ≠ []) (hc : 1 ≤ cpu) :
    (mkBatches cpu rows).map Prod.fst = List.range (mkBatches cpu rows).length ∧
    ((mkBatches cpu rows).map Prod.snd).flatten = rows ∧
    (∀ b ∈ mkBatches cpu rows, b.2 ≠ [] ∧ b.2.length ≤ batch_sizeOf cpu rows.length) ∧
    (∀ j, j + 1 < (mkBatches cpu rows).length →
      ((mkBatches cpu rows).getD j (0, [])).2.length = batch_sizeOf cpu rows.length) := by
  have hn : 1 ≤ rows.length := by
    cases rows with
    | nil => exact absurd rfl hr
    | cons a l => simp
  exact ⟨mkBatches_ids rows hc hn, mkBatches_flatten rows hc hn,
    fun b hb => mkBatches_mem hc hn hb, mkBatches_full_slice rows hc hn⟩

end QuantumSQLTB

namespace QuantumSQLTB

/-- The all-zero noise realization, used for concrete instantiations. -/
def noNoise : Nat → Nat → ℚ := fun _ _ => 0

/-- C9 (code bug).  `normalize_expr` is not idempotent: Python's
`str.replace(">==", ">=")` rewrites leftmost non-overlapping occurrences
once, so `"x >=== 3"` normalizes to `"x >== 3"` and only a second pass
reaches the fixed point `"x >= 3"`. -/
theorem c9_normalize_not_idempotent :
    normalize_expr "x >=== 3" = "x >== 3" ∧
    normalize_expr (normalize_expr "x >=== 3") = "x >= 3" ∧
    normalize_expr (normalize_expr "x >=== 3") ≠ normalize_expr "x >=== 3" :=
  ⟨by decide, by decide, by decide⟩

/-- C5 counterexample. -/
theorem c5_counterexample :
    parse_expression (tokenize (normalize_expr "bp >> 100")) = .ok (.cmp "bp" ">" ">") ∧
    (QuantumSQL.init ["id", "bp"]).run_query noNoise 4 true (["r1"] : List String) "bp >> 100"
      = .ok ([1], ["r1"]) := by
  refine ⟨by decide, ?_⟩
  have hp : parse_expression (tokenize (normalize_expr "bp >> 100")) = .ok (.cmp "bp" ">" ">") := by
    decide
  have hb : mkBatches 4 (["r1"] : List String) = [(0, ["r1"])] := by decide
  rw [QuantumSQL.run_query, hp]
  simp only [List.length_cons, List.length_nil, hb]
  rw [if_neg (by omega)]
  have hmode : chooseMode true (0 + 1) = "sparse" := by decide
  rw [hmode]
  have hsim : simulate_batch noNoise (0, (["r1"] : List String), pyOr1 (ceilLog2 (0 + 1)) + 32,
      "sparse") = .ok (0, [1]) := by
    simp [simulate_batch, sparseVec, clip01, noNoise]
  simp only [List.isEmpty_cons, mapMExcept, hsim]
  have hagg : aggregate_results [(0, [(1 : ℚ)])] (["r1"] : List String) = ([1], [0]) := by
    simp [aggregate_results, sortById, insertById, qMean, qVar, selGe]
    rw [show List.range 1 = [0] from rfl]
    simp [List.filter]
  rw [hagg]
  simp

/-- C5 amended. -/
theorem c5_amended :
    (∀ (α : Type) [Inhabited α] (Q : QuantumSQL) (ν : Nat → Nat → ℚ) (cpu : Nat)
      (g : Bool) (rows : List α) (cond : String) (e : QErr),
      parse_expression (tokenize (normalize_expr cond)) = .error e →
      Q.run_query ν cpu g rows cond = .error e) ∧
    parse_expression (tokenize (normalize_expr "")) = .error .indexError ∧
    parse_expression (tokenize (normalize_expr "(bp > 100")) = .error .indexError ∧
    parse_expression (tokenize (normalize_expr "bp >> 100")) = .ok (.cmp "bp" ">" ">") ∧
    parse_expression (tokenize (normalize_expr "> 100")) = .ok (.var ">") := by
  refine ⟨?_, by decide, by decide, by decide, by decide⟩
  intro α _ Q ν cpu g rows cond e he
  rw [QuantumSQL.run_query, he]

/-- C5 witness. -/
theorem c5_witness :
    (QuantumSQL.init ["id", "bp"]).run_query noNoise 4 true (["r1"] : List String) "(bp > 100"
      = .error .indexError :=
  c5_amended.1 String (QuantumSQL.init ["id", "bp"]) noNoise 4 true ["r1"] "(bp > 100"
    .indexError (by decide)

/-- C6 counterexample. -/
theorem c6_counterexample :
    (QuantumSQL.init ["id", "bp"]).run_query noNoise 4 true ([] : List String) "x > 1"
      = .error .mathDomain := by
  have hp : parse_expression (tokenize (normalize_expr "x > 1")) = .ok (.cmp "x" ">" "1") := by
    decide
  rw [QuantumSQL.run_query, hp]
  rfl

/-- C6 amended. -/
theorem c6_amended (α : Type) [Inhabited α] (Q : QuantumSQL) (ν : Nat → Nat → ℚ)
    (cpu : Nat) (g : Bool) (cond : String) (ast : Ast)
    (hp : parse_expression (tokenize (normalize_expr cond)) = .ok ast) :
    Q.run_query ν cpu g ([] : List α) cond = .error .mathDomain := by
  rw [QuantumSQL.run_query, hp]
  rfl

/-- C6 witness. -/
theorem c6_witness :
    (QuantumSQL.init ["id"]).run_query noNoise 4 false ([] : List String) "temp < 40"
      = .error .mathDomain :=
  c6_amended String (QuantumSQL.init ["id"]) noNoise 4 false "temp < 40"
    (.cmp "temp" "<" "40") (by decide)

/-- C7 counterexample. -/
theorem c7_counterexample :
    (QuantumSQL.init ["id", "bp"]).run_query noNoise 4 true (["r1"] : List String) "zzz > 5"
      = .ok ([1], ["r1"]) := by
  have hp : parse_expression (tokenize (normalize_expr "zzz > 5")) = .ok (.cmp "zzz" ">" "5") := by
    decide
  have hb : mkBatches 4 (["r1"] : List String) = [(0, ["r1"])] := by decide
  rw [QuantumSQL.run_query, hp]
  simp only [List.length_cons, List.length_nil, hb]
  rw [if_neg (by omega)]
  have hmode : chooseMode true (0 + 1) = "sparse" := by decide
  rw [hmode]
  have hsim : simulate_batch noNoise (0, (["r1"] : List String), pyOr1 (ceilLog2 (0 + 1)) + 32,
      "sparse") = .ok (0, [1]) := by
    simp [simulate_batch, sparseVec, clip01, noNoise]
  simp only [List.isEmpty_cons, mapMExcept, hsim]
  have hagg : aggregate_results [(0, [(1 : ℚ)])] (["r1"] : List String) = ([1], [0]) := by
    simp [aggregate_results, sortById, insertById, qMean, qVar, selGe]
    rw [show List.range 1 = [0] from rfl]
    simp [List.filter]
  rw [hagg]
  simp

/-- C7 amended. -/
theorem c7_amended :
    (∀ (α : Type) [Inhabited α] (cols cols' : List String) (ν : Nat → Nat → ℚ) (cpu : Nat)
      (g : Bool) (rows : List α) (cond : String),
      (QuantumSQL.init cols).run_query ν cpu g rows cond
        = (QuantumSQL.init cols').run_query ν cpu g rows cond) ∧
    (∀ (α : Type) [Inhabited α] (Q : QuantumSQL) (ν : Nat → Nat → ℚ) (cpu : Nat) (g : Bool)
      (rows : List α) (cond : String) (ast : Ast), rows ≠ [] → 1 ≤ cpu →
      parse_expression (tokenize (normalize_expr cond)) = .ok ast →
      (∀ b ∈ mkBatches cpu rows, 0 < clippedSum ν b) →
      ∃ probs matched, Q.run_query ν cpu g rows cond = .ok (probs, matched)) := by
  constructor
  · intro α _ cols cols' ν cpu g rows cond
    rfl
  · intro α _ Q ν cpu g rows cond ast hr hc hp hν
    obtain ⟨probs, idx, heq, _, _, _, _⟩ := run_query_spec Q ν cpu g rows cond ast hr hc hp hν
    exact ⟨probs, idx.map (fun i => rows.getD i default), heq⟩

/-- C7 witness. -/
theorem c7_witness :
    ∃ probs matched, (QuantumSQL.init ["id", "bp"]).run_query noNoise 6 true
      (["r1", "r2"] : List String) "zzz > 5" = .ok (probs, matched) :=
  c7_amended.2 String (QuantumSQL.init ["id", "bp"]) noNoise 6 true ["r1", "r2"] "zzz > 5"
    (.cmp "zzz" ">" "5") (by decide) (by decide) (by decide) (by
      intro b hb
      rw [show mkBatches 6 (["r1", "r2"] : List String) = [(0, ["r1"]), (1, ["r2"])] from by
        decide] at hb
      simp only [List.mem_cons, List.not_mem_nil, or_false] at hb
      rcases hb with rfl | rfl <;> simp [clippedSum, clip01, noNoise])

end QuantumSQLTB

namespace QSqlV48

/-- Values living in the `eval` environment of `_handle_select`: a row
field becomes a float when it passes the `isdigit` guard, else stays text. -/
inductive PyVal
  | num (q : ℚ)
  | str (s : String)
deriving DecidableEq

/-- Python `s.replace('.', '', 1)`: drop the first dot only. -/
def removeFirstDot : List Char → List Char
  | [] => []
  | c :: cs => if c = '.' then cs else c :: removeFirstDot cs

/-- The guard `row[i].replace('.', '', 1).isdigit()`. -/
def isFloatDigits (s : String) : Bool :=
  !(removeFirstDot s.data).isEmpty && (removeFirstDot s.data).all Char.isDigit

/-- Decimal value of a digit string. -/
def digitsVal (l : List Char) : Nat :=
  l.foldl (fun a c => a * 10 + (c.toNat - '0'.toNat)) 0

/-- Python `float()` on the digits-and-at-most-one-dot strings admitted by
the `isFloatDigits` guard. -/
def pyFloat (s : String) : ℚ :=
  let ip := s.data.takeWhile (fun c => c ≠ '.')
  let fp := (s.data.dropWhile (fun c => c ≠ '.')).drop 1
  (digitsVal ip : ℚ) + (digitsVal fp : ℚ) / (10 ^ fp.length)

/-- The environment `{c: float(row[i]) if row[i].replace('.','',1).isdigit()
else row[i] for i, c in enumerate(columns)}` of `_handle_select`. -/
def rowEnv (cols : List String) (row : List String) (name : String) : Option PyVal :=
  match (cols.zip row).find? (fun p => p.1 = name) with
  | some (_, v) => some (if isFloatDigits v then .num (pyFloat v) else .str v)
  | none => none

/-- Python boolean expressions of the condition-string form that
`_handle_select` evaluates with `eval` in classic mode. -/
inductive BExpr
  | cmp (col : String) (op : String) (lit : ℚ)
  | band (a b : BExpr)
  | bor (a b : BExpr)
  | bnot (a : BExpr)
deriving DecidableEq

/-- `quantum_compare`-style Python comparison of a float against a numeric
literal; `none` models a Python runtime error (unknown name or a
string/number comparison). -/
def pyCmp (x y : ℚ) (op : String) : Option Bool :=
  if op = ">" then some (decide (y < x))
  else if op = "<" then some (decide (x < y))
  else if op = ">=" then some (decide (y ≤ x))
  else if op = "<=" then some (decide (x ≤ y))
  else if op = "==" then some (decide (x = y))
  else if op = "!=" then some (decide (x ≠ y))
  else none

/-- Evaluation of the condition expression in an environment, exactly as
Python `eval` computes it on this expression form. -/
def evalB (env : String → Option PyVal) : BExpr → Option Bool
  | .cmp col op lit =>
    match env col with
    | some (.num q) => pyCmp q lit op
    | _ => none
  | .band a b =>
    match evalB env a, evalB env b with
    | some x, some y => some (x && y)
    | _, _ => none
  | .bor a b =>
    match evalB env a, evalB env b with
    | some x, some y => some (x || y)
    | _, _ => none
  | .bnot a => (evalB env a).map (fun x => !x)

/-- `QuantumTable` from `quantum_sql.py` (name, columns, inserted rows). -/
structure QuantumTable where
  name : String
  columns : List String
  rows : List (List String)

/-- `QuantumTable.quantum_select_classic`: keep the rows satisfying the
condition function. -/
def QuantumTable.quantum_select_classic (tb : QuantumTable)
    (cond_func : List String → Bool) : List (List String) :=
  tb.rows.filter cond_func

/-- The `cond_func` closure `_handle_select` builds in classic mode:
evaluate the condition string over the row environment (Python `eval`
returns a bool on this expression form). -/
def classicCond (tb : QuantumTable) (cond : BExpr) (r : List String) : Bool :=
  evalB (rowEnv tb.columns r) cond == some true

/-- The classic-mode SELECT path of `QuantumSQLServer._handle_select`. -/
def handle_select_classic (tb : QuantumTable) (cond : BExpr) : List (List String) :=
  tb.quantum_select_classic (classicCond tb cond)

/-- The Python expression AST of the filter `"bp > 100 and bp < 130"`,
as `eval` parses it. -/
def bpFilter : BExpr := .band (.cmp "bp" ">" 100) (.cmp "bp" "<" 130)

/-- The example table: rows (P1,120), (P2,110), (P3,95), (P4,140). -/
def patients : QuantumTable :=
  ⟨"patients", ["id", "bp"], [["P1", "120"], ["P2", "110"], ["P3", "95"], ["P4", "140"]]⟩

theorem c8_deterministic_mode :
    handle_select_classic patients bpFilter = [["P1", "120"], ["P2", "110"]] := by
  simp +decide [handle_select_classic, QuantumTable.quantum_select_classic, classicCond,
    patients, evalB, rowEnv, bpFilter, pyCmp, isFloatDigits, removeFirstDot, pyFloat,
    digitsVal, List.filter]

end QSqlV48

namespace QuantumSQLTB

/-- C1 witness at a concrete instantiation. -/
theorem c1_witness :
    ∃ probs matched, (QuantumSQL.init ["id", "bp"]).run_query noNoise 4 true
        (["r1", "r2", "r3"] : List String) "bp > 100" = .ok (probs, matched) ∧
      probs.length = (["r1", "r2", "r3"] : List String).length ∧
      (∀ p ∈ probs, 0 ≤ p ∧ p ≤ 1) ∧ probs.sum = 1 ∧ |probs.sum - 1| ≤ 1 / 1000000 :=
  c1_score_vector_shape (QuantumSQL.init ["id", "bp"]) noNoise 4 true ["r1", "r2", "r3"]
    "bp > 100" (.cmp "bp" ">" "100") (by decide) (by decide) (by decide) (by
      intro b hb
      rw [show mkBatches 4 (["r1", "r2", "r3"] : List String)
          = [(0, ["r1"]), (1, ["r2"]), (2, ["r3"])] from by decide] at hb
      simp only [List.mem_cons, List.not_mem_nil, or_false] at hb
      rcases hb with rfl | rfl | rfl <;> simp [clippedSum, clip01, noNoise])

/-- C2 witness at a concrete instantiation. -/
theorem c2_witness :
    ∃ probs idx, (QuantumSQL.init ["id", "bp"]).run_query noNoise 4 true
        (["r1", "r2"] : List String) "bp < 50"
        = .ok (probs, idx.map (fun i => (["r1", "r2"] : List String).getD i default)) ∧
      idx = (List.range probs.length).filter
              (fun i => selGe (probs.getD i 0) (qMean probs) (qVar probs)) ∧
      (∀ i, i < probs.length →
        (selGe (probs.getD i 0) (qMean probs) (qVar probs) = true ↔
          (qMean probs : ℝ) + Real.sqrt (qVar probs : ℝ) ≤ (probs.getD i 0 : ℝ))) ∧
      idx.Pairwise (· < ·) ∧
      ((∀ p ∈ probs, ∀ q ∈ probs, p = q) →
        idx.map (fun i => (["r1", "r2"] : List String).getD i default)
          = (["r1", "r2"] : List String)) :=
  c2_threshold_law (QuantumSQL.init ["id", "bp"]) noNoise 4 true ["r1", "r2"] "bp < 50"
    (.cmp "bp" "<" "50") (by decide) (by decide) (by decide) (by
      intro b hb
      rw [show mkBatches 4 (["r1", "r2"] : List String)
          = [(0, ["r1"]), (1, ["r2"])] from by decide] at hb
      simp only [List.mem_cons, List.not_mem_nil, or_false] at hb
      rcases hb with rfl | rfl <;> simp [clippedSum, clip01, noNoise])

/-- C3 witness at a concrete instantiation. -/
theorem c3_witness :
    (QuantumSQL.init ["id"]).run_query noNoise 4 true (["r1"] : List String) "bp > 100"
      = (QuantumSQL.init ["id"]).run_query noNoise 4 true (["r1"] : List String)
          "temp < 5 or fever" ∧
    ∀ (rows1 rows2 : List String) (bid tq : Nat) (mode : String),
      rows1.length = rows2.length →
      simulate_batch noNoise (bid, rows1, tq, mode)
        = simulate_batch noNoise (bid, rows2, tq, mode) :=
  c3_condition_noninterference (QuantumSQL.init ["id"]) noNoise 4 true ["r1"] "bp > 100"
    "temp < 5 or fever" (.cmp "bp" ">" "100") (.or (.cmp "temp" "<" "5") (.var "fever"))
    (by decide) (by decide)

/-- C4 witness at a concrete instantiation. -/
theorem c4_witness :
    chooseMode true 5 = "sparse" ∧
    (QuantumSQL.init ["id"]).run_query noNoise 4 true (["r1"] : List String) "bp > 100"
      = (QuantumSQL.init ["id"]).run_query noNoise 4 false (["r1"] : List String) "bp > 100" :=
  ⟨c4_always_sparse.1 true 5 (by decide),
   c4_always_sparse.2 (QuantumSQL.init ["id"]) noNoise 4 true false ["r1"] "bp > 100"⟩

/-- C10 witness at a concrete instantiation. -/
theorem c10_witness :
    (mkBatches 3 (["a", "b", "c", "d", "e"] : List String)).map Prod.fst
        = List.range (mkBatches 3 (["a", "b", "c", "d", "e"] : List String)).length ∧
    ((mkBatches 3 (["a", "b", "c", "d", "e"] : List String)).map Prod.snd).flatten
        = ["a", "b", "c", "d", "e"] ∧
    (∀ b ∈ mkBatches 3 (["a", "b", "c", "d", "e"] : List String),
      b.2 ≠ [] ∧ b.2.length ≤ batch_sizeOf 3 (["a", "b", "c", "d", "e"] : List String).length) ∧
    (∀ j, j + 1 < (mkBatches 3 (["a", "b", "c", "d", "e"] : List String)).length →
      ((mkBatches 3 (["a", "b", "c", "d", "e"] : List String)).getD j (0, [])).2.length
        = batch_sizeOf 3 (["a", "b", "c", "d", "e"] : List String).length) :=
  c10_partition ["a", "b", "c", "d", "e"] 3 (by decide) (by decide)

end QuantumSQLTB
